import Mathlib

/-!
# datastone: the nstuff/model storage interface over the App Engine datastore

A shallow embedding of `datastone.go`.  The file wraps the external package
`appengine/datastore`; that package is not part of the sources, so

* the query builder `datastore.Query` is embedded as the record of the criteria
  it has parsed, each builder method returning a derivative query and leaving its
  receiver untouched, and recording an error instead of a criterion when it
  rejects its argument (the package's documented behaviour), and
* the calls that reach the store (`Get`, `Put`, `Delete`, `DeleteMulti`,
  `GetAll`, `Count`, `Run`) are the fields of `datastore.Service`, over which
  every wrapper function is parametrised.

Go pointers to mutable receivers become explicit state passing: a builder method
returns the updated `Query`, a call that writes returns the new store state.
-/

namespace datastone

/-! ## Values exchanged with the backend -/

/-- Go `error` values the wrapper tells apart by identity: the two sentinels of
`appengine/datastore`, the sentinel of `nstuff/model`, and every other backend
failure (identified by a code). A nil `error` is `none : Option Error`. -/
inductive Error where
  | Done
  | ErrNoSuchEntity
  | ErrNotFound
  | backend (code : Nat)
  deriving DecidableEq, Repr

/-- A property value (`interface{}` in the source). -/
inductive Value where
  | int (i : Int)
  | str (s : String)
  | bool (b : Bool)
  deriving DecidableEq, Repr

/-- The referent of a `*datastore.Key`; `intID = 0` is an incomplete key. -/
structure Key where
  kind : String
  intID : Nat
  deriving DecidableEq, Repr

/-- A `model.Identifier` interface value: nil, or holding a `*datastore.Key`. -/
abbrev Identifier := Option Key

/-- A stored record: its named properties. -/
abbrev Entity := List (String × Value)

/-- An `appengine.Context` handle. -/
structure appengine.Context where
  id : Nat
  deriving DecidableEq, Repr

/-- Values of `model.Operator`. -/
abbrev model.Operator := Int

/-- The five operator constants of `nstuff/model` named by the `switch` of
`Query.Filter`. The package is outside the sources, so their values are a
parameter. -/
structure model.Operators where
  EQ : model.Operator
  GE : model.Operator
  GT : model.Operator
  LE : model.Operator
  LT : model.Operator
  deriving DecidableEq, Repr

/-- The constants are pairwise different (Go rejects a `switch` with duplicate
constant cases). -/
def model.Operators.Distinct (m : model.Operators) : Prop :=
  [m.EQ, m.GE, m.GT, m.LE, m.LT].Nodup

instance (m : model.Operators) : Decidable m.Distinct := by
  unfold model.Operators.Distinct; infer_instance

/-- The constants numbered in declaration order. -/
def model.enumerated : model.Operators :=
  { EQ := 0, GE := 1, GT := 2, LE := 3, LT := 4 }

/-! ## The backend query builder -/

/-- Go `unicode.IsSpace`: the characters with the Unicode White Space property. -/
def unicode.IsSpace (c : Char) : Bool :=
  decide (c.toNat ∈ [0x09, 0x0A, 0x0B, 0x0C, 0x0D, 0x20, 0x85, 0xA0, 0x1680, 0x2028, 0x2029,
    0x202F, 0x205F, 0x3000]) || (decide (0x2000 ≤ c.toNat) && decide (c.toNat ≤ 0x200A))

/-- Go `strings.TrimSpace`: white space removed at both ends. -/
def strings.TrimSpace (s : String) : String :=
  String.mk ((s.data.dropWhile unicode.IsSpace).rdropWhile unicode.IsSpace)

/-- Go `strings.TrimRight`: trailing characters of `cutset` removed. -/
def strings.TrimRight (s cutset : String) : String :=
  String.mk (s.data.rdropWhile (fun c => cutset.data.contains c))

/-- The comparison of a query filter. -/
inductive datastore.operator where
  | lessThan
  | lessEq
  | equal
  | greaterEq
  | greaterThan
  deriving DecidableEq, Repr

/-- A parsed query filter. -/
structure datastore.filter where
  FieldName : String
  Op : datastore.operator
  Value : datastone.Value
  deriving DecidableEq, Repr

/-- The direction of a sort order. -/
inductive datastore.sortDirection where
  | ascending
  | descending
  deriving DecidableEq, Repr

/-- A parsed sort order. -/
structure datastore.order where
  Direction : datastore.sortDirection
  FieldName : String
  deriving DecidableEq, Repr

/-- The errors a builder method records in the query instead of a criterion. -/
inductive datastore.QueryError where
  | invalidFilter (filterStr : String)
  | invalidOperator (op filterStr : String)
  | invalidOrder (fieldName : String)
  | emptyOrder
  | limitOverflow
  | negativeOffset
  | offsetOverflow
  deriving DecidableEq, Repr

/-- A `datastore.Query`: the parsed criteria in call order, and the error of the
last rejected builder call, if any. -/
structure datastore.Query where
  kind : String
  filter : List datastore.filter
  order : List datastore.order
  keysOnly : Bool
  limit : Int
  offset : Int
  err : Option datastore.QueryError
  deriving DecidableEq, Repr

/-- Query over `kind` with no criteria (`limit = -1` is the unlimited query). -/
def datastore.NewQuery (kind : String) : datastore.Query :=
  { kind := kind, filter := [], order := [], keysOnly := false, limit := -1, offset := 0,
    err := none }

/-- Derivative query with one more field-based filter. The filter string is
trimmed and split into the field name (the string without its trailing
characters among space, `>`, `<`, `=`, `!`) and the operator (the rest, trimmed);
an empty string or an unrecognised operator records an error and adds nothing. -/
def datastore.Query.Filter (q : datastore.Query) (filterStr : String) (value : Value) :
    datastore.Query :=
  let filterStr := strings.TrimSpace filterStr
  if filterStr.data.length < 1 then
    { q with err := some (datastore.QueryError.invalidFilter filterStr) }
  else
    let FieldName := strings.TrimRight filterStr " ><=!"
    let op := strings.TrimSpace (String.mk (filterStr.data.drop FieldName.data.length))
    if op = "<=" then
      { q with filter := q.filter ++
          [{ FieldName := FieldName, Op := datastore.operator.lessEq, Value := value }] }
    else if op = ">=" then
      { q with filter := q.filter ++
          [{ FieldName := FieldName, Op := datastore.operator.greaterEq, Value := value }] }
    else if op = "<" then
      { q with filter := q.filter ++
          [{ FieldName := FieldName, Op := datastore.operator.lessThan, Value := value }] }
    else if op = ">" then
      { q with filter := q.filter ++
          [{ FieldName := FieldName, Op := datastore.operator.greaterThan, Value := value }] }
    else if op = "=" then
      { q with filter := q.filter ++
          [{ FieldName := FieldName, Op := datastore.operator.equal, Value := value }] }
    else
      { q with err := some (datastore.QueryError.invalidOperator op filterStr) }

/-- Derivative query with one more sort order; orders apply in the order added.
The name is trimmed; a leading `-` asks for descending order on the rest of the
name (trimmed); a leading `+` or an empty name records an error and adds nothing. -/
def datastore.Query.Order (q : datastore.Query) (fieldName : String) : datastore.Query :=
  let fieldName := strings.TrimSpace fieldName
  if fieldName.data.head? = some '-' then
    let name := strings.TrimSpace (String.mk (fieldName.data.drop 1))
    if name.data.length = 0 then
      { q with err := some datastore.QueryError.emptyOrder }
    else
      { q with order := q.order ++
          [{ Direction := datastore.sortDirection.descending, FieldName := name }] }
  else if fieldName.data.head? = some '+' then
    { q with err := some (datastore.QueryError.invalidOrder fieldName) }
  else if fieldName.data.length = 0 then
    { q with err := some datastore.QueryError.emptyOrder }
  else
    { q with order := q.order ++
        [{ Direction := datastore.sortDirection.ascending, FieldName := fieldName }] }

/-- Derivative query that yields only keys. -/
def datastore.Query.KeysOnly (q : datastore.Query) : datastore.Query :=
  { q with keysOnly := true }

/-- Derivative query with a result limit; a limit outside the 32-bit range
records an error. -/
def datastore.Query.Limit (q : datastore.Query) (limit : Int) : datastore.Query :=
  if limit < -2147483648 ∨ limit > 2147483647 then
    { q with err := some datastore.QueryError.limitOverflow }
  else
    { q with limit := limit }

/-- Derivative query with a result offset; a negative offset or one above the
32-bit range records an error. -/
def datastore.Query.Offset (q : datastore.Query) (offset : Int) : datastore.Query :=
  if offset < 0 then
    { q with err := some datastore.QueryError.negativeOffset }
  else if offset > 2147483647 then
    { q with err := some datastore.QueryError.offsetOverflow }
  else
    { q with offset := offset }

/-- A field name the filter parser takes as it is: no white space in front and
no space, `>`, `<`, `=` or `!` at the end. -/
def datastore.plainField (field : String) : Bool :=
  field.data.head?.all (fun c => !unicode.IsSpace c) &&
    field.data.getLast?.all (fun c => !(" ><=!".data.contains c))

/-- A field name the order parser takes as it is: not empty, no white space at
either end, and no `-` or `+` in front. -/
def datastore.plainName (fieldName : String) : Bool :=
  !fieldName.data.isEmpty &&
    fieldName.data.head?.all (fun c => !unicode.IsSpace c && c != '-' && c != '+') &&
    fieldName.data.getLast?.all (fun c => !unicode.IsSpace c)

/-- A `datastore.Iterator`: the results not yet consumed (payload absent for a
keys-only run) and the error reported once they are used up, `Done` on normal
exhaustion. -/
structure datastore.Iterator where
  results : List (Key × Option Entity)
  err : Error
  deriving DecidableEq, Repr

/-- One advance of the cursor: key, decoded payload, error; and the cursor after. -/
def datastore.Iterator.Next (t : datastore.Iterator) :
    (Option Key × Option Entity × Option Error) × datastore.Iterator :=
  match t.results with
  | [] => ((none, none, some t.err), t)
  | r :: rest => ((some r.1, r.2, none), { t with results := rest })

/-- The calls of `appengine/datastore` that reach the store, over a store state `σ`. -/
structure datastore.Service (σ : Type) where
  Get : appengine.Context → Key → σ → Option Entity × Option Error
  Put : appengine.Context → Key → Entity → σ → (Option Key × Option Error) × σ
  Delete : appengine.Context → Key → σ → Option Error × σ
  DeleteMulti : appengine.Context → List Key → σ → Option Error × σ
  GetAll : datastore.Query → appengine.Context → σ → List Key × List Entity × Option Error
  Count : datastore.Query → appengine.Context → σ → Int × Option Error
  Run : datastore.Query → appengine.Context → σ → datastore.Iterator

/-- Key of `kind` without an id yet (`datastore.NewIncompleteKey` with a nil parent). -/
def datastore.NewIncompleteKey (_c : appengine.Context) (kind : String) : Key :=
  { kind := kind, intID := 0 }

/-! ## The wrapper: `Conn`, `Storage`, `Query`, `Iter` -/

/-- Conn implements `model.Connecter`. -/
structure Conn where
  context : appengine.Context
  deriving DecidableEq, Repr

def NewConn (ct : appengine.Context) : Conn :=
  { context := ct }

def Conn.SetContext (c : Conn) (ct : appengine.Context) : Conn :=
  { c with context := ct }

def Conn.Context (c : Conn) : appengine.Context :=
  c.context

/-- Storage implements `model.Storer`. -/
structure Storage where
  name : String
  conn : Conn
  deriving DecidableEq, Repr

def Conn.Storage (c : Conn) (name : String) : Storage :=
  { name := name, conn := c }

/-- Query implements `model.Querier`. -/
structure Query where
  query : datastore.Query
  storage : Storage
  deriving DecidableEq, Repr

def Storage.NewKey (s : Storage) : Identifier × Option Error :=
  (some (datastore.NewIncompleteKey s.conn.context s.name), none)

def Storage.NewQuery (s : Storage) : Query :=
  { query := datastore.NewQuery s.name, storage := s }

def Storage.Put {σ : Type} (B : datastore.Service σ) (s : Storage) (src : Entity) (st : σ) :
    (Identifier × Option Error) × σ :=
  B.Put s.conn.context (datastore.NewIncompleteKey s.conn.context s.name) src st

/-- The identifier is taken at the type the assertion `key.(*datastore.Key)` demands. -/
def Storage.Get {σ : Type} (B : datastore.Service σ) (s : Storage) (key : Key) (st : σ) :
    Option Entity × Option Error :=
  let r := B.Get s.conn.Context key st
  let err := r.2
  if err = some Error.Done then
    (r.1, some Error.ErrNotFound)
  else
    (r.1, err)

def Storage.Update {σ : Type} (B : datastore.Service σ) (s : Storage) (key : Key)
    (change : Entity) (st : σ) : Option Error × σ :=
  let r := B.Put s.conn.Context key change st
  let err := r.1.2
  if err = some Error.Done then
    (some Error.ErrNotFound, r.2)
  else
    (err, r.2)

def Storage.Delete {σ : Type} (B : datastore.Service σ) (s : Storage) (key : Key) (st : σ) :
    Option Error × σ :=
  B.Delete s.conn.Context key st

def Query.Filter (m : model.Operators) (q : Query) (field : String)
    (operator : model.Operator) (value : Value) : Query :=
  if operator = m.EQ then
    { q with query := q.query.Filter (field ++ " =") value }
  else if operator = m.GE then
    { q with query := q.query.Filter (field ++ " >=") value }
  else if operator = m.GT then
    { q with query := q.query.Filter (field ++ " >") value }
  else if operator = m.LE then
    { q with query := q.query.Filter (field ++ " <=") value }
  else if operator = m.LT then
    { q with query := q.query.Filter (field ++ " <") value }
  else
    { q with query := q.query.Filter (field ++ " =") value }

/-- The derivative query returned by the backend is dropped; `q.query` is not assigned. -/
def Query.KeysOnly (q : Query) : Query :=
  let _ := q.query.KeysOnly
  q

def Query.Limit (q : Query) (limit : Int) : Query :=
  { q with query := q.query.Limit limit }

def Query.Offset (q : Query) (offset : Int) : Query :=
  { q with query := q.query.Offset offset }

def Query.Order (q : Query) (field : String) : Query :=
  { q with query := q.query.Order field }

def Query.OrderDescending (q : Query) (field : String) : Query :=
  { q with query := q.query.Order ("-" ++ field) }

def Query.GetFirst {σ : Type} (B : datastore.Service σ) (q : Query) (st : σ) :
    Identifier × Option Entity × Option Error :=
  let t := B.Run q.query q.storage.conn.Context st
  let r := t.Next.1
  let key := r.1
  let err := r.2.2
  if err = some Error.Done then
    (key, r.2.1, some Error.ErrNotFound)
  else
    (key, r.2.1, err)

/-- The loop `for i := 0; i < n; i++ { keys[i] = results[i] }` over
`keys := make([]model.Identifier, n)`. -/
def copyKeys (results : List Key) (n : Nat) : List Identifier :=
  (List.range n).foldl (fun keys i => keys.set i results[i]?) (List.replicate n none)

def Query.GetAll {σ : Type} (B : datastore.Service σ) (q : Query) (st : σ) :
    List Identifier × List Entity × Option Error :=
  let r := B.GetAll q.query q.storage.conn.Context st
  let results := r.1
  let err := r.2.2
  if err ≠ none then
    if err = some Error.Done then
      ([], r.2.1, some Error.ErrNotFound)
    else
      ([], r.2.1, err)
  else
    let n := results.length
    if n = 0 then
      ([], r.2.1, some Error.ErrNotFound)
    else
      let keys := copyKeys results n
      (keys, r.2.1, err)

def Query.DeleteAll {σ : Type} (B : datastore.Service σ) (q : Query) (st : σ) :
    (List Identifier × Option Error) × σ :=
  let r := B.GetAll q.query.KeysOnly q.storage.conn.context st
  let results := r.1
  let err := r.2.2
  if err ≠ none then
    if err = some Error.Done then
      (([], some Error.ErrNotFound), st)
    else
      (([], err), st)
  else
    let n := results.length
    if n = 0 then
      (([], some Error.ErrNotFound), st)
    else
      let keys := copyKeys results n
      let d := B.DeleteMulti q.storage.conn.context results st
      ((keys, d.1), d.2)

def Query.Count {σ : Type} (B : datastore.Service σ) (q : Query) (st : σ) :
    Int × Option Error :=
  B.Count q.query q.storage.conn.context st

/-- Iter wraps the backend cursor. -/
structure Iter where
  iter : datastore.Iterator
  deriving DecidableEq, Repr

def Query.Iter {σ : Type} (B : datastore.Service σ) (q : Query) (st : σ) : Iter :=
  { iter := B.Run q.query q.storage.conn.context st }

def Iter.Next (i : Iter) : (Identifier × Option Entity × Option Error) × Iter :=
  let r := i.iter.Next
  (r.1, { iter := r.2 })

/-! ## Contracts of the store used by the theorems -/

/-- The store counts what it materialises: when `GetAll` on `q` reports no error,
`Count` on `q` reports no error and the number of keys `GetAll` returned. -/
def datastore.Service.CountAgrees {σ : Type} (B : datastore.Service σ)
    (q : datastore.Query) (c : appengine.Context) (st : σ) : Prop :=
  (B.GetAll q c st).2.2 = none →
    B.Count q c st = (((B.GetAll q c st).1.length : Int), none)

/-- The store forgets what it deletes: after a `DeleteMulti` that reports no
error, `Get` on each deleted key loads nothing and reports an error. -/
def datastore.Service.DeletesKeys {σ : Type} (B : datastore.Service σ) : Prop :=
  ∀ (c : appengine.Context) (keys : List Key) (st : σ),
    (B.DeleteMulti c keys st).1 = none →
      ∀ k ∈ keys, ∀ c2 : appengine.Context,
        (B.Get c2 k (B.DeleteMulti c keys st).2).1 = none ∧
        (B.Get c2 k (B.DeleteMulti c keys st).2).2 ≠ none

/-! ## An in-memory instance of the service -/

/-- The table of an in-memory store. -/
abbrev memstore.Table := List (Key × Entity)

/-- The first id above every id in the table. -/
def memstore.freshID (st : memstore.Table) : Nat :=
  (st.map (fun p => p.1.intID)).foldl max 0 + 1

/-- An in-memory `datastore.Service`. The query engine `select` (which rows a
query yields, and in which order) is a parameter; the table operations follow
the package documentation: `Get` of an absent key reports `ErrNoSuchEntity`,
`Delete` and `DeleteMulti` of absent keys succeed, a cursor ends with `Done`. -/
def memstore (select : datastore.Query → memstore.Table → memstore.Table) :
    datastore.Service memstore.Table where
  Get _ key st :=
    match st.lookup key with
    | some e => (some e, none)
    | none => (none, some Error.ErrNoSuchEntity)
  Put _ key src st :=
    if key.intID = 0 then
      ((some { key with intID := memstore.freshID st }, none),
        st ++ [({ key with intID := memstore.freshID st }, src)])
    else
      ((some key, none), st.filter (fun p => decide (p.1 ≠ key)) ++ [(key, src)])
  Delete _ key st := (none, st.filter (fun p => decide (p.1 ≠ key)))
  DeleteMulti _ keys st := (none, st.filter (fun p => decide (p.1 ∉ keys)))
  GetAll q _ st :=
    ((select q st).map (fun p => p.1),
      if q.keysOnly then [] else (select q st).map (fun p => p.2), none)
  Count q _ st := (((select q st).length : Int), none)
  Run q _ st :=
    { results := (select q st).map (fun p => (p.1, if q.keysOnly then none else some p.2)),
      err := Error.Done }

/-- The engine that yields every row of the query's kind, in table order. -/
def memstore.byKind (q : datastore.Query) (st : memstore.Table) : memstore.Table :=
  st.filter (fun p => p.1.kind == q.kind)

/-- Storage "users" on a connection. -/
def fixture.users : Storage :=
  (NewConn { id := 1 }).Storage "users"

/-- Two stored users. -/
def fixture.table : memstore.Table :=
  [({ kind := "users", intID := 1 }, [("name", Value.str "a")]),
   ({ kind := "users", intID := 2 }, [("name", Value.str "b")])]

/-! ## Lemmas -/

theorem copyKeys_fold_length (results : List Key) (n k : Nat) :
    ((List.range k).foldl (fun keys i => keys.set i results[i]?)
      (List.replicate n (none : Identifier))).length = n := by
  induction k with
  | zero => simp
  | succ k ih => rw [List.range_succ, List.foldl_append]; simpa using ih

theorem copyKeys_fold_getElem? (results : List Key) (n k j : Nat) :
    ((List.range k).foldl (fun keys i => keys.set i results[i]?)
      (List.replicate n (none : Identifier)))[j]?
      = if j < n then some (if j < k then results[j]? else none) else none := by
  induction k with
  | zero => simp [List.getElem?_replicate]
  | succ k ih =>
    rw [List.range_succ, List.foldl_append]
    simp only [List.foldl_cons, List.foldl_nil]
    rw [List.getElem?_set, ih, copyKeys_fold_length]
    by_cases hkj : k = j
    · subst hkj
      by_cases hkn : k < n <;> simp [hkn]
    · simp only [hkj, if_false]
      by_cases hjn : j < n
      · simp only [hjn, if_true]
        by_cases hjk : j < k
        · have : j < k + 1 := by omega
          simp [hjk, this]
        · have : ¬ j < k + 1 := by omega
          simp [hjk, this]
      · simp [hjn]

/-- The copy loop returns the backend keys, each boxed, in the same order. -/
theorem copyKeys_eq_map (results : List Key) :
    copyKeys results results.length = results.map some := by
  apply List.ext_getElem?
  intro j
  unfold copyKeys
  rw [copyKeys_fold_getElem?, List.getElem?_map]
  by_cases hj : j < results.length
  · simp [hj, List.getElem?_eq_getElem hj]
  · have : results[j]? = none := by simp; omega
    simp [hj, this]

theorem append_ne_of_data_ne (field a b : String) (h : a.data ≠ b.data) :
    field ++ a ≠ field ++ b := by
  intro heq
  apply h
  have := congrArg String.data heq
  simpa [String.data_append] using this

theorem filterStr_eq (field sym : String) : field ++ (" " ++ sym) = field ++ " " ++ sym := by
  rw [String.append_assoc]

theorem rdropWhile_append_all {α : Type} (p : α → Bool) (l s : List α)
    (h : ∀ a ∈ s, p a = true) : (l ++ s).rdropWhile p = l.rdropWhile p := by
  unfold List.rdropWhile
  rw [List.reverse_append, List.dropWhile_append_of_pos]
  intro a ha
  exact h a (List.mem_reverse.mp ha)

theorem rdropWhile_append_keep {α : Type} (p : α → Bool) (l s : List α) (hs : s ≠ [])
    (h : ∀ a ∈ s, p a = false) : (l ++ s).rdropWhile p = l ++ s := by
  rw [List.rdropWhile_eq_self_iff]
  intro hl
  rw [List.getLast_append_right hs, h _ (List.getLast_mem hs)]
  simp

theorem rdropWhile_keep {α : Type} (p : α → Bool) (l : List α)
    (h : l.getLast?.all (fun c => !p c) = true) : l.rdropWhile p = l := by
  rcases List.eq_nil_or_concat l with hl | ⟨s1, y, hl⟩
  · subst hl; simp
  · subst hl
    rw [List.concat_eq_append] at h ⊢
    simp at h
    rw [List.rdropWhile_concat_neg]
    simp [h]

theorem dropWhile_keep {α : Type} (p : α → Bool) (l : List α)
    (h : l.head?.all (fun c => !p c) = true) : l.dropWhile p = l := by
  cases l with
  | nil => rfl
  | cons c rest =>
    simp at h
    simp [List.dropWhile_cons, h]

/-- Trimming an operator symbol, with or without the separating space in front,
gives the symbol back. -/
theorem trim_symbol (sd : List Char) (hs : sd ≠ [])
    (hsp : ∀ a ∈ sd, unicode.IsSpace a = false) :
    (sd.dropWhile unicode.IsSpace).rdropWhile unicode.IsSpace = sd ∧
    ((' ' :: sd).dropWhile unicode.IsSpace).rdropWhile unicode.IsSpace = sd := by
  have h1 : sd.dropWhile unicode.IsSpace = sd := by
    cases sd with
    | nil => rfl
    | cons a t => simp [List.dropWhile_cons, hsp a (List.mem_cons_self a t)]
  have h2 : sd.rdropWhile unicode.IsSpace = sd := by
    simpa using rdropWhile_append_keep unicode.IsSpace [] sd hs hsp
  have h3 : (' ' :: sd).dropWhile unicode.IsSpace = sd := by
    rw [List.dropWhile_cons]
    have : unicode.IsSpace ' ' = true := by decide
    simp only [this, if_true]
    exact h1
  exact ⟨by rw [h1, h2], by rw [h3, h2]⟩

/-- How the filter parser splits `field ++ " " ++ sym` for a plain field and an
operator symbol: the field name is `field`, the operator is `sym`. -/
theorem filter_parse (field sym : String) (hf : datastore.plainField field = true)
    (hs : sym.data ≠ []) (hcut : ∀ a ∈ sym.data, " ><=!".data.contains a = true)
    (hsp : ∀ a ∈ sym.data, unicode.IsSpace a = false) :
    (strings.TrimSpace (field ++ " " ++ sym)).data ≠ [] ∧
    strings.TrimRight (strings.TrimSpace (field ++ " " ++ sym)) " ><=!" = field ∧
    strings.TrimSpace (String.mk ((strings.TrimSpace (field ++ " " ++ sym)).data.drop
      field.data.length)) = sym := by
  obtain ⟨t1, t2⟩ := trim_symbol sym.data hs hsp
  have hdata : (field ++ " " ++ sym).data = field.data ++ ' ' :: sym.data := by
    simp [String.data_append]
  unfold datastore.plainField at hf
  rw [Bool.and_eq_true] at hf
  obtain ⟨hhead, hlast⟩ := hf
  have hfs : (strings.TrimSpace (field ++ " " ++ sym)).data
      = if field.data = [] then sym.data else field.data ++ ' ' :: sym.data := by
    unfold strings.TrimSpace
    rw [hdata]
    by_cases hnil : field.data = []
    · rw [if_pos hnil, hnil]
      exact t2
    · rw [if_neg hnil]
      have hd : (field.data ++ ' ' :: sym.data).dropWhile unicode.IsSpace
          = field.data ++ ' ' :: sym.data := by
        apply dropWhile_keep
        cases hfd : field.data with
        | nil => exact absurd hfd hnil
        | cons c rest =>
          rw [hfd] at hhead
          simpa using hhead
      show ((field.data ++ ' ' :: sym.data).dropWhile unicode.IsSpace).rdropWhile
        unicode.IsSpace = _
      rw [hd]
      have : field.data ++ ' ' :: sym.data = (field.data ++ [' ']) ++ sym.data := by simp
      rw [this]
      exact rdropWhile_append_keep unicode.IsSpace _ sym.data hs hsp
  have hcutall : ∀ a ∈ ' ' :: sym.data, " ><=!".data.contains a = true := by
    intro a ha
    rcases List.mem_cons.mp ha with h | h
    · subst h; decide
    · exact hcut a h
  by_cases hnil : field.data = []
  · rw [if_pos hnil] at hfs
    have hfield : field = String.mk [] := String.ext hnil
    refine ⟨by rw [hfs]; exact hs, ?_, ?_⟩
    · unfold strings.TrimRight
      rw [hfs, hfield]
      congr 1
      exact List.rdropWhile_eq_nil_iff.mpr (fun x hx => hcut x hx)
    · rw [hfs, hnil]
      unfold strings.TrimSpace
      show String.mk ((sym.data.dropWhile unicode.IsSpace).rdropWhile unicode.IsSpace) = sym
      rw [t1]
  · rw [if_neg hnil] at hfs
    refine ⟨by rw [hfs]; simp, ?_, ?_⟩
    · unfold strings.TrimRight
      rw [hfs]
      show String.mk _ = String.mk field.data
      congr 1
      rw [rdropWhile_append_all _ _ _ hcutall]
      exact rdropWhile_keep _ _ hlast
    · rw [hfs, List.drop_left]
      unfold strings.TrimSpace
      show String.mk (((' ' :: sym.data).dropWhile unicode.IsSpace).rdropWhile
        unicode.IsSpace) = sym
      rw [t2]

/-- The derivative query the builder returns for `field ++ " " ++ sym`, for a
plain field and an operator symbol. -/
theorem builder_filter_plain (q : datastore.Query) (field sym : String) (value : Value)
    (hf : datastore.plainField field = true)
    (hs : sym.data ≠ []) (hcut : ∀ a ∈ sym.data, " ><=!".data.contains a = true)
    (hsp : ∀ a ∈ sym.data, unicode.IsSpace a = false) :
    q.Filter (field ++ " " ++ sym) value =
      if sym = "<=" then
        { q with filter := q.filter ++
            [{ FieldName := field, Op := datastore.operator.lessEq, Value := value }] }
      else if sym = ">=" then
        { q with filter := q.filter ++
            [{ FieldName := field, Op := datastore.operator.greaterEq, Value := value }] }
      else if sym = "<" then
        { q with filter := q.filter ++
            [{ FieldName := field, Op := datastore.operator.lessThan, Value := value }] }
      else if sym = ">" then
        { q with filter := q.filter ++
            [{ FieldName := field, Op := datastore.operator.greaterThan, Value := value }] }
      else if sym = "=" then
        { q with filter := q.filter ++
            [{ FieldName := field, Op := datastore.operator.equal, Value := value }] }
      else
        { q with err := some (datastore.QueryError.invalidOperator sym
            (strings.TrimSpace (field ++ " " ++ sym))) } := by
  obtain ⟨h1, h2, h3⟩ := filter_parse field sym hf hs hcut hsp
  have hlen : ¬ (strings.TrimSpace (field ++ " " ++ sym)).data.length < 1 := by
    have := List.length_pos.mpr h1
    omega
  unfold datastore.Query.Filter
  simp only [hlen, if_false, h2, h3]

/-- The five operator symbols pass the conditions of `builder_filter_plain`. -/
theorem builder_filter_symbols (q : datastore.Query) (field : String) (value : Value)
    (hf : datastore.plainField field = true) :
    q.Filter (field ++ " " ++ "=") value = { q with filter := q.filter ++
      [{ FieldName := field, Op := datastore.operator.equal, Value := value }] } ∧
    q.Filter (field ++ " " ++ ">=") value = { q with filter := q.filter ++
      [{ FieldName := field, Op := datastore.operator.greaterEq, Value := value }] } ∧
    q.Filter (field ++ " " ++ ">") value = { q with filter := q.filter ++
      [{ FieldName := field, Op := datastore.operator.greaterThan, Value := value }] } ∧
    q.Filter (field ++ " " ++ "<=") value = { q with filter := q.filter ++
      [{ FieldName := field, Op := datastore.operator.lessEq, Value := value }] } ∧
    q.Filter (field ++ " " ++ "<") value = { q with filter := q.filter ++
      [{ FieldName := field, Op := datastore.operator.lessThan, Value := value }] } := by
  refine ⟨?_, ?_, ?_, ?_, ?_⟩
  · rw [builder_filter_plain q field "=" value hf (by decide) (by decide) (by decide)]
    rfl
  · rw [builder_filter_plain q field ">=" value hf (by decide) (by decide) (by decide)]
    rfl
  · rw [builder_filter_plain q field ">" value hf (by decide) (by decide) (by decide)]
    rfl
  · rw [builder_filter_plain q field "<=" value hf (by decide) (by decide) (by decide)]
    rfl
  · rw [builder_filter_plain q field "<" value hf (by decide) (by decide) (by decide)]
    rfl

/-- What the order parser makes of a plain name, bare and behind a `-`. -/
theorem builder_order_plain (q : datastore.Query) (f : String)
    (hf : datastore.plainName f = true) :
    q.Order f = { q with order := q.order ++
      [{ Direction := datastore.sortDirection.ascending, FieldName := f }] } ∧
    q.Order ("-" ++ f) = { q with order := q.order ++
      [{ Direction := datastore.sortDirection.descending, FieldName := f }] } := by
  unfold datastore.plainName at hf
  simp only [Bool.and_eq_true] at hf
  obtain ⟨⟨hne, hhead⟩, hlast⟩ := hf
  obtain ⟨c, rest, hfd⟩ : ∃ c rest, f.data = c :: rest := by
    cases hfd : f.data with
    | nil => rw [hfd] at hne; simp at hne
    | cons c rest => exact ⟨c, rest, rfl⟩
  have hc : unicode.IsSpace c = false ∧ c ≠ '-' ∧ c ≠ '+' := by
    rw [hfd] at hhead
    simpa [and_assoc] using hhead
  have hhd : f.data.head?.all (fun c => !unicode.IsSpace c) = true := by
    rw [hfd]; simp [hc.1]
  have htrim : strings.TrimSpace f = f := by
    unfold strings.TrimSpace
    rw [dropWhile_keep _ _ hhd, rdropWhile_keep _ _ hlast]
  have hlast2 : ('-' :: f.data).getLast?.all (fun c => !unicode.IsSpace c) = true := by
    rw [hfd, List.getLast?_cons_cons, ← hfd]
    exact hlast
  have hminus : ("-" ++ f).data = '-' :: f.data := by
    simp [String.data_append]
  have htrim2 : strings.TrimSpace ("-" ++ f) = String.mk ('-' :: f.data) := by
    unfold strings.TrimSpace
    rw [hminus]
    have : ('-' :: f.data).dropWhile unicode.IsSpace = '-' :: f.data := by
      apply dropWhile_keep
      show (!unicode.IsSpace '-') = true
      decide
    rw [this, rdropWhile_keep _ _ hlast2]
  constructor
  · unfold datastore.Query.Order
    simp only [htrim]
    have h1 : ¬ f.data.head? = some '-' := by rw [hfd]; simpa using hc.2.1
    have h2 : ¬ f.data.head? = some '+' := by rw [hfd]; simpa using hc.2.2
    have h3 : ¬ f.data.length = 0 := by rw [hfd]; simp
    simp only [h1, h2, h3, if_false]
  · unfold datastore.Query.Order
    simp only [htrim2]
    have h1 : ('-' :: f.data).head? = some '-' := rfl
    have h2 : String.mk (('-' :: f.data).drop 1) = f := rfl
    have h3 : ¬ f.data.length = 0 := by rw [hfd]; simp
    simp only [h1, if_true, h2, htrim, h3, if_false]

theorem lookup_filter_not_mem (keys : List Key) (k : Key) (hk : k ∈ keys)
    (st : memstore.Table) :
    (st.filter (fun p => decide (p.1 ∉ keys))).lookup k = none := by
  induction st with
  | nil => rfl
  | cons p rest ih =>
    by_cases hp : p.1 ∈ keys
    · simpa [List.filter_cons, hp] using ih
    · have hne : k ≠ p.1 := fun h => hp (h ▸ hk)
      have hb : (k == p.1) = false := by simpa using hne
      rw [List.filter_cons]
      simp only [hp, not_false_eq_true, decide_True, if_true]
      obtain ⟨a, b⟩ := p
      simp only [List.lookup_cons, hb]
      exact ih

theorem memstore_deletesKeys (select : datastore.Query → memstore.Table → memstore.Table) :
    (memstore select).DeletesKeys := by
  intro c keys st _ k hk c2
  have h := lookup_filter_not_mem keys k hk st
  simp only [memstore]
  rw [h]
  exact ⟨rfl, by simp⟩

theorem memstore_countAgrees (select : datastore.Query → memstore.Table → memstore.Table)
    (q : datastore.Query) (c : appengine.Context) (st : memstore.Table) :
    (memstore select).CountAgrees q c st := by
  intro _
  simp [memstore]

theorem getAll_of_done {σ : Type} (B : datastore.Service σ) (q : Query) (st : σ)
    (h : (B.GetAll q.query q.storage.conn.context st).2.2 = some Error.Done) :
    (Query.GetAll B q st).1 = [] ∧ (Query.GetAll B q st).2.2 = some Error.ErrNotFound := by
  simp [Query.GetAll, Conn.Context, h]

theorem getAll_of_no_key {σ : Type} (B : datastore.Service σ) (q : Query) (st : σ)
    (h : (B.GetAll q.query q.storage.conn.context st).2.2 = none)
    (hn : (B.GetAll q.query q.storage.conn.context st).1 = []) :
    (Query.GetAll B q st).1 = [] ∧ (Query.GetAll B q st).2.2 = some Error.ErrNotFound := by
  simp [Query.GetAll, Conn.Context, h, hn]

theorem getAll_of_error {σ : Type} (B : datastore.Service σ) (q : Query) (st : σ) (e : Error)
    (h : (B.GetAll q.query q.storage.conn.context st).2.2 = some e) (hne : e ≠ Error.Done) :
    (Query.GetAll B q st).1 = [] ∧ (Query.GetAll B q st).2.2 = some e := by
  simp [Query.GetAll, Conn.Context, h, hne]

theorem getAll_of_keys {σ : Type} (B : datastore.Service σ) (q : Query) (st : σ)
    (h : (B.GetAll q.query q.storage.conn.context st).2.2 = none)
    (hn : (B.GetAll q.query q.storage.conn.context st).1 ≠ []) :
    (Query.GetAll B q st).2.2 = none ∧
    (Query.GetAll B q st).1 = (B.GetAll q.query q.storage.conn.context st).1.map some := by
  have hlen : (B.GetAll q.query q.storage.conn.context st).1.length ≠ 0 := by
    simpa using hn
  simp [Query.GetAll, Conn.Context, h, hlen, copyKeys_eq_map]

theorem getFirst_of_exhausted {σ : Type} (B : datastore.Service σ) (q : Query) (st : σ)
    (hr : (B.Run q.query q.storage.conn.context st).results = [])
    (he : (B.Run q.query q.storage.conn.context st).err = Error.Done) :
    Query.GetFirst B q st = (none, none, some Error.ErrNotFound) := by
  simp [Query.GetFirst, Conn.Context, datastore.Iterator.Next, hr, he]

/-! ## Theorems -/

/-- C1: for an operator value that is none of EQ, GE, GT, LE, LT, `Query.Filter`
leaves the query (backend query and bound storage) exactly as `Query.Filter`
with EQ does from the same starting state. -/
theorem filter_unknown_operator_as_EQ (m : model.Operators) (q : Query) (field : String)
    (operator : model.Operator) (value : Value)
    (hEQ : operator ≠ m.EQ) (hGE : operator ≠ m.GE) (hGT : operator ≠ m.GT)
    (hLE : operator ≠ m.LE) (hLT : operator ≠ m.LT) :
    Query.Filter m q field operator value = Query.Filter m q field m.EQ value := by
  simp [Query.Filter, hEQ, hGE, hGT, hLE, hLT]

theorem filter_unknown_operator_as_EQ_witness :
    Query.Filter model.enumerated fixture.users.NewQuery "name" 7 (Value.str "a")
      = Query.Filter model.enumerated fixture.users.NewQuery "name" model.enumerated.EQ
          (Value.str "a") :=
  filter_unknown_operator_as_EQ model.enumerated fixture.users.NewQuery "name" 7
    (Value.str "a") (by decide) (by decide) (by decide) (by decide) (by decide)

/-- C2 fails as stated: for the field "n<" the backend query gains no predicate
from `Query.Filter` with EQ (the filter string "n< =" has no recognised
operator); an error is recorded instead. -/
theorem filter_rejected_field_appends_nothing :
    (Query.Filter model.enumerated fixture.users.NewQuery "n<" model.enumerated.EQ
        (Value.int 1)).query.filter = [] ∧
    (Query.Filter model.enumerated fixture.users.NewQuery "n<" model.enumerated.EQ
        (Value.int 1)).query.err ≠ none := by
  decide

/-- C2 as amended: for a field with no white space in front and no space, `>`,
`<`, `=` or `!` at the end, `Query.Filter` appends exactly one predicate after
the ones already in the backend query and changes nothing else; the filter
string it hands over is the field, a space and the operator symbol ("=" for EQ,
">=" for GE, ">" for GT, "<=" for LE, "<" for LT, and one of these for any
operator) and the predicate is on that field with that comparison; the five
filter strings for one field are pairwise different. -/
theorem filter_appends_one_predicate (m : model.Operators) (hm : m.Distinct) (q : Query)
    (field : String) (value : Value) (hf : datastore.plainField field = true) :
    (∀ operator : model.Operator, ∃ (sym : String) (op : datastore.operator),
      Query.Filter m q field operator value =
        { q with query := q.query.Filter (field ++ " " ++ sym) value } ∧
      Query.Filter m q field operator value =
        { q with query := { q.query with filter := q.query.filter ++
            [{ FieldName := field, Op := op, Value := value }] } }) ∧
    (Query.Filter m q field m.EQ value =
        { q with query := q.query.Filter (field ++ " " ++ "=") value } ∧
      Query.Filter m q field m.EQ value =
        { q with query := { q.query with filter := q.query.filter ++
            [{ FieldName := field, Op := datastore.operator.equal, Value := value }] } }) ∧
    (Query.Filter m q field m.GE value =
        { q with query := q.query.Filter (field ++ " " ++ ">=") value } ∧
      Query.Filter m q field m.GE value =
        { q with query := { q.query with filter := q.query.filter ++
            [{ FieldName := field, Op := datastore.operator.greaterEq,
               Value := value }] } }) ∧
    (Query.Filter m q field m.GT value =
        { q with query := q.query.Filter (field ++ " " ++ ">") value } ∧
      Query.Filter m q field m.GT value =
        { q with query := { q.query with filter := q.query.filter ++
            [{ FieldName := field, Op := datastore.operator.greaterThan,
               Value := value }] } }) ∧
    (Query.Filter m q field m.LE value =
        { q with query := q.query.Filter (field ++ " " ++ "<=") value } ∧
      Query.Filter m q field m.LE value =
        { q with query := { q.query with filter := q.query.filter ++
            [{ FieldName := field, Op := datastore.operator.lessEq, Value := value }] } }) ∧
    (Query.Filter m q field m.LT value =
        { q with query := q.query.Filter (field ++ " " ++ "<") value } ∧
      Query.Filter m q field m.LT value =
        { q with query := { q.query with filter := q.query.filter ++
            [{ FieldName := field, Op := datastore.operator.lessThan,
               Value := value }] } }) ∧
    [field ++ " " ++ "=", field ++ " " ++ ">=", field ++ " " ++ ">", field ++ " " ++ "<=",
      field ++ " " ++ "<"].Pairwise (fun a b => a ≠ b) := by
  have hd : m.EQ ≠ m.GE ∧ m.EQ ≠ m.GT ∧ m.EQ ≠ m.LE ∧ m.EQ ≠ m.LT ∧ m.GE ≠ m.GT ∧
      m.GE ≠ m.LE ∧ m.GE ≠ m.LT ∧ m.GT ≠ m.LE ∧ m.GT ≠ m.LT ∧ m.LE ≠ m.LT := by
    have := hm
    simp only [model.Operators.Distinct, List.nodup_cons, List.mem_cons, List.mem_singleton,
      not_or, List.not_mem_nil, not_false_eq_true, List.nodup_nil, and_true] at this
    tauto
  obtain ⟨h1, h2, h3, h4, h5, h6, h7, h8, h9, h10⟩ := hd
  have e1 : field ++ " =" = field ++ " " ++ "=" := filterStr_eq field "="
  have e2 : field ++ " >=" = field ++ " " ++ ">=" := filterStr_eq field ">="
  have e3 : field ++ " >" = field ++ " " ++ ">" := filterStr_eq field ">"
  have e4 : field ++ " <=" = field ++ " " ++ "<=" := filterStr_eq field "<="
  have e5 : field ++ " <" = field ++ " " ++ "<" := filterStr_eq field "<"
  obtain ⟨b1, b2, b3, b4, b5⟩ := builder_filter_symbols q.query field value hf
  have cEQ : Query.Filter m q field m.EQ value =
      { q with query := q.query.Filter (field ++ " " ++ "=") value } := by
    unfold Query.Filter
    rw [if_pos rfl, e1]
  have cGE : Query.Filter m q field m.GE value =
      { q with query := q.query.Filter (field ++ " " ++ ">=") value } := by
    unfold Query.Filter
    rw [if_neg (Ne.symm h1), if_pos rfl, e2]
  have cGT : Query.Filter m q field m.GT value =
      { q with query := q.query.Filter (field ++ " " ++ ">") value } := by
    unfold Query.Filter
    rw [if_neg (Ne.symm h2), if_neg (Ne.symm h5), if_pos rfl, e3]
  have cLE : Query.Filter m q field m.LE value =
      { q with query := q.query.Filter (field ++ " " ++ "<=") value } := by
    unfold Query.Filter
    rw [if_neg (Ne.symm h3), if_neg (Ne.symm h6), if_neg (Ne.symm h8), if_pos rfl, e4]
  have cLT : Query.Filter m q field m.LT value =
      { q with query := q.query.Filter (field ++ " " ++ "<") value } := by
    unfold Query.Filter
    rw [if_neg (Ne.symm h4), if_neg (Ne.symm h7), if_neg (Ne.symm h9), if_neg (Ne.symm h10),
      if_pos rfl, e5]
  refine ⟨?_, ⟨cEQ, by rw [cEQ, b1]⟩, ⟨cGE, by rw [cGE, b2]⟩, ⟨cGT, by rw [cGT, b3]⟩,
    ⟨cLE, by rw [cLE, b4]⟩, ⟨cLT, by rw [cLT, b5]⟩, ?_⟩
  · intro operator
    by_cases c1 : operator = m.EQ
    · subst c1
      exact ⟨"=", datastore.operator.equal, cEQ, by rw [cEQ, b1]⟩
    by_cases c2 : operator = m.GE
    · subst c2
      exact ⟨">=", datastore.operator.greaterEq, cGE, by rw [cGE, b2]⟩
    by_cases c3 : operator = m.GT
    · subst c3
      exact ⟨">", datastore.operator.greaterThan, cGT, by rw [cGT, b3]⟩
    by_cases c4 : operator = m.LE
    · subst c4
      exact ⟨"<=", datastore.operator.lessEq, cLE, by rw [cLE, b4]⟩
    by_cases c5 : operator = m.LT
    · subst c5
      exact ⟨"<", datastore.operator.lessThan, cLT, by rw [cLT, b5]⟩
    · have cD : Query.Filter m q field operator value =
          { q with query := q.query.Filter (field ++ " " ++ "=") value } := by
        unfold Query.Filter
        rw [if_neg c1, if_neg c2, if_neg c3, if_neg c4, if_neg c5, e1]
      exact ⟨"=", datastore.operator.equal, cD, by rw [cD, b1]⟩
  · rw [← e1, ← e2, ← e3, ← e4, ← e5]
    simp only [List.pairwise_cons, List.mem_cons, List.mem_singleton, forall_eq_or_imp,
      forall_eq, List.not_mem_nil, false_implies, implies_true, List.Pairwise.nil, and_true]
    refine ⟨⟨?_, ?_, ?_, ?_⟩, ⟨?_, ?_, ?_⟩, ⟨?_, ?_⟩, ?_⟩ <;>
      exact append_ne_of_data_ne field _ _ (by decide)

theorem filter_appends_one_predicate_witness :
    (Query.Filter model.enumerated fixture.users.NewQuery "age" model.enumerated.GE
        (Value.int 18)).query.filter
      = [{ FieldName := "age", Op := datastore.operator.greaterEq, Value := Value.int 18 }] := by
  have h := (filter_appends_one_predicate model.enumerated (by decide) fixture.users.NewQuery
    "age" (Value.int 18) (by decide)).2.2.1.2
  rw [h]
  decide

/-- C3: `Query.GetAll` fails with ErrNotFound when the backend reports the
end-of-results sentinel or returns no key, hands any other backend error back
unchanged with a nil identifier list, and otherwise succeeds with a non-empty
identifier list holding the backend keys, same length and same order. -/
theorem getAll_outcomes {σ : Type} (B : datastore.Service σ) (q : Query) (st : σ) :
    ((B.GetAll q.query q.storage.conn.context st).2.2 = some Error.Done →
      (Query.GetAll B q st).1 = [] ∧ (Query.GetAll B q st).2.2 = some Error.ErrNotFound) ∧
    ((B.GetAll q.query q.storage.conn.context st).2.2 = none →
      (B.GetAll q.query q.storage.conn.context st).1 = [] →
      (Query.GetAll B q st).1 = [] ∧ (Query.GetAll B q st).2.2 = some Error.ErrNotFound) ∧
    (∀ e : Error, (B.GetAll q.query q.storage.conn.context st).2.2 = some e →
      e ≠ Error.Done →
      (Query.GetAll B q st).1 = [] ∧ (Query.GetAll B q st).2.2 = some e) ∧
    ((B.GetAll q.query q.storage.conn.context st).2.2 = none →
      (B.GetAll q.query q.storage.conn.context st).1 ≠ [] →
      (Query.GetAll B q st).2.2 = none ∧ (Query.GetAll B q st).1 ≠ [] ∧
      (Query.GetAll B q st).1 = (B.GetAll q.query q.storage.conn.context st).1.map some ∧
      (Query.GetAll B q st).1.length
        = (B.GetAll q.query q.storage.conn.context st).1.length) := by
  refine ⟨getAll_of_done B q st, getAll_of_no_key B q st, getAll_of_error B q st, ?_⟩
  intro h hn
  obtain ⟨h1, h2⟩ := getAll_of_keys B q st h hn
  refine ⟨h1, ?_, h2, ?_⟩
  · rw [h2]
    simpa using hn
  · rw [h2, List.length_map]

theorem getAll_outcomes_witness :
    (Query.GetAll (memstore memstore.byKind) fixture.users.NewQuery fixture.table).1
      = [some { kind := "users", intID := 1 }, some { kind := "users", intID := 2 }] := by
  have h := (getAll_outcomes (memstore memstore.byKind) fixture.users.NewQuery
    fixture.table).2.2.2 (by decide) (by decide)
  rw [h.2.2.1]
  decide

/-- C4: `Query.DeleteAll` runs the key-only derivative of the query; when no
identifier matches it returns ErrNotFound and leaves the store as it was (no
delete is issued); when at least one matches it issues one `DeleteMulti` whose
argument is the matched key list and returns that list; and after a successful
DeleteAll on a store that forgets what it deletes, `Storage.Get` on any matched
identifier finds no record. -/
theorem deleteAll_outcomes {σ : Type} (B : datastore.Service σ) (hB : B.DeletesKeys)
    (q : Query) (st : σ) :
    (q.query.KeysOnly.keysOnly = true ∧
      { q.query.KeysOnly with keysOnly := q.query.keysOnly } = q.query) ∧
    ((B.GetAll q.query.KeysOnly q.storage.conn.context st).2.2 ≠ none ∨
        (B.GetAll q.query.KeysOnly q.storage.conn.context st).1 = [] →
      (Query.DeleteAll B q st).1.1 = [] ∧ (Query.DeleteAll B q st).2 = st) ∧
    ((B.GetAll q.query.KeysOnly q.storage.conn.context st).2.2 = none →
      (B.GetAll q.query.KeysOnly q.storage.conn.context st).1 = [] →
      Query.DeleteAll B q st = (([], some Error.ErrNotFound), st)) ∧
    ((B.GetAll q.query.KeysOnly q.storage.conn.context st).2.2 = none →
      (B.GetAll q.query.KeysOnly q.storage.conn.context st).1 ≠ [] →
      Query.DeleteAll B q st =
        (((B.GetAll q.query.KeysOnly q.storage.conn.context st).1.map some,
          (B.DeleteMulti q.storage.conn.context
            (B.GetAll q.query.KeysOnly q.storage.conn.context st).1 st).1),
          (B.DeleteMulti q.storage.conn.context
            (B.GetAll q.query.KeysOnly q.storage.conn.context st).1 st).2)) ∧
    ((B.GetAll q.query.KeysOnly q.storage.conn.context st).2.2 = none →
      (B.GetAll q.query.KeysOnly q.storage.conn.context st).1 ≠ [] →
      (Query.DeleteAll B q st).1.2 = none →
      ∀ k ∈ (B.GetAll q.query.KeysOnly q.storage.conn.context st).1,
        (Storage.Get B q.storage k (Query.DeleteAll B q st).2).1 = none ∧
        (Storage.Get B q.storage k (Query.DeleteAll B q st).2).2 ≠ none) := by
  have hsome : ∀ (h : (B.GetAll q.query.KeysOnly q.storage.conn.context st).2.2 = none)
      (hn : (B.GetAll q.query.KeysOnly q.storage.conn.context st).1 ≠ []),
      Query.DeleteAll B q st =
        (((B.GetAll q.query.KeysOnly q.storage.conn.context st).1.map some,
          (B.DeleteMulti q.storage.conn.context
            (B.GetAll q.query.KeysOnly q.storage.conn.context st).1 st).1),
          (B.DeleteMulti q.storage.conn.context
            (B.GetAll q.query.KeysOnly q.storage.conn.context st).1 st).2) := by
    intro h hn
    have hlen : (B.GetAll q.query.KeysOnly q.storage.conn.context st).1.length ≠ 0 := by
      simpa using hn
    simp [Query.DeleteAll, h, hlen, copyKeys_eq_map]
  refine ⟨⟨rfl, rfl⟩, ?_, ?_, hsome, ?_⟩
  · intro h
    by_cases he : (B.GetAll q.query.KeysOnly q.storage.conn.context st).2.2 = none
    · have hn : (B.GetAll q.query.KeysOnly q.storage.conn.context st).1 = [] := by
        rcases h with h | h
        · exact absurd he h
        · exact h
      simp [Query.DeleteAll, he, hn]
    · by_cases hd : (B.GetAll q.query.KeysOnly q.storage.conn.context st).2.2
          = some Error.Done
      · simp [Query.DeleteAll, hd]
      · simp [Query.DeleteAll, he, hd]
  · intro h hn
    simp [Query.DeleteAll, h, hn]
  · intro h hn hok k hk
    rw [hsome h hn] at hok ⊢
    have hg := hB q.storage.conn.context _ st hok k hk q.storage.conn.context
    obtain ⟨hg1, hg2⟩ := hg
    unfold Storage.Get Conn.Context
    simp only
    split
    · exact ⟨hg1, by simp⟩
    · exact ⟨hg1, hg2⟩

theorem deleteAll_outcomes_witness :
    (Storage.Get (memstore memstore.byKind) fixture.users { kind := "users", intID := 2 }
      (Query.DeleteAll (memstore memstore.byKind) fixture.users.NewQuery fixture.table).2).1
      = none :=
  ((deleteAll_outcomes (memstore memstore.byKind) (memstore_deletesKeys memstore.byKind)
    fixture.users.NewQuery fixture.table).2.2.2.2 (by decide) (by decide) (by decide)
    { kind := "users", intID := 2 } (by decide)).1

/-- C5: on a store that counts what it materialises, whenever `Query.GetAll`
succeeds `Query.Count` on the same query and state returns, without error, the
length of the identifier list GetAll returns; and when nothing matches, Count
returns 0 without error while GetAll returns ErrNotFound. -/
theorem count_eq_len_getAll {σ : Type} (B : datastore.Service σ) (q : Query) (st : σ)
    (hB : B.CountAgrees q.query q.storage.conn.context st) :
    ((Query.GetAll B q st).2.2 = none →
      Query.Count B q st = (((Query.GetAll B q st).1.length : Int), none)) ∧
    ((B.GetAll q.query q.storage.conn.context st).2.2 = none →
      (B.GetAll q.query q.storage.conn.context st).1 = [] →
      Query.Count B q st = (0, none) ∧
      (Query.GetAll B q st).2.2 = some Error.ErrNotFound) := by
  constructor
  · intro hok
    by_cases he : (B.GetAll q.query q.storage.conn.context st).2.2 = none
    · by_cases hn : (B.GetAll q.query q.storage.conn.context st).1 = []
      · have := (getAll_of_no_key B q st he hn).2
        rw [this] at hok
        exact absurd hok (by simp)
      · rw [(getAll_of_keys B q st he hn).2, List.length_map]
        exact hB he
    · obtain ⟨e, hsome⟩ := Option.ne_none_iff_exists'.mp he
      by_cases hd : e = Error.Done
      · have := (getAll_of_done B q st (hd ▸ hsome)).2
        rw [this] at hok
        exact absurd hok (by simp)
      · have := (getAll_of_error B q st e hsome hd).2
        rw [this] at hok
        exact absurd hok (by simp)
  · intro he hn
    refine ⟨?_, (getAll_of_no_key B q st he hn).2⟩
    have := hB he
    rw [hn] at this
    simpa [Query.Count] using this

theorem count_eq_len_getAll_witness :
    Query.Count (memstore memstore.byKind) fixture.users.NewQuery fixture.table
      = (2, none) := by
  have h := (count_eq_len_getAll (memstore memstore.byKind) fixture.users.NewQuery
    fixture.table (memstore_countAgrees _ _ _ _)).1 (by decide)
  rw [h]
  decide

/-- C6: `Query.KeysOnly` leaves the query it holds as it was: the key-only
derivative the backend returns is not stored, so the held query of a fresh
`NewQuery` is still not key-only afterwards and `GetAll` runs the unmarked
query; the sibling `Query.Limit` does store the derivative it gets. -/
theorem keysOnly_leaves_query_unmarked :
    (∀ q : Query, Query.KeysOnly q = q) ∧
    (Query.KeysOnly fixture.users.NewQuery).query.keysOnly = false ∧
    (Query.GetAll (memstore memstore.byKind) (Query.KeysOnly fixture.users.NewQuery)
        fixture.table).2.1 = [[("name", Value.str "a")], [("name", Value.str "b")]] ∧
    (Query.Limit fixture.users.NewQuery 5).query.limit = 5 := by
  refine ⟨fun _ => rfl, by decide, by decide, by decide⟩

/-- C7 fails as stated: after `Order "age"` then `Order "name"` on a fresh query
the backend query does not carry the ordering on "name" alone. -/
theorem order_twice_not_replaced :
    ¬ ((Query.Order (Query.Order fixture.users.NewQuery "age") "name").query.order
        = [{ Direction := datastore.sortDirection.ascending, FieldName := "name" }]) := by
  decide

/-- C7 as amended: for fields `f` and `g` that are not empty, carry no white
space at either end and do not begin with `-` or `+`, `Query.Order` and
`Query.OrderDescending` with `g` after an earlier one with `f` leave the backend
query with both orderings after those it already had, the one on `f` first and
the one on `g` last (ascending for Order, descending for OrderDescending, which
hands the backend "-" followed by the field); nothing else changes. -/
theorem order_appends_after_prior (q : Query) (f g : String)
    (hf : datastore.plainName f = true) (hg : datastore.plainName g = true) :
    Query.OrderDescending q g = { q with query := q.query.Order ("-" ++ g) } ∧
    Query.Order (Query.Order q f) g =
      { q with query := { q.query with order := q.query.order ++
          [{ Direction := datastore.sortDirection.ascending, FieldName := f },
           { Direction := datastore.sortDirection.ascending, FieldName := g }] } } ∧
    Query.OrderDescending (Query.Order q f) g =
      { q with query := { q.query with order := q.query.order ++
          [{ Direction := datastore.sortDirection.ascending, FieldName := f },
           { Direction := datastore.sortDirection.descending, FieldName := g }] } } ∧
    Query.Order (Query.OrderDescending q f) g =
      { q with query := { q.query with order := q.query.order ++
          [{ Direction := datastore.sortDirection.descending, FieldName := f },
           { Direction := datastore.sortDirection.ascending, FieldName := g }] } } ∧
    Query.OrderDescending (Query.OrderDescending q f) g =
      { q with query := { q.query with order := q.query.order ++
          [{ Direction := datastore.sortDirection.descending, FieldName := f },
           { Direction := datastore.sortDirection.descending, FieldName := g }] } } := by
  refine ⟨rfl, ?_, ?_, ?_, ?_⟩ <;>
    simp [Query.Order, Query.OrderDescending, (builder_order_plain _ f hf).1,
      (builder_order_plain _ f hf).2, (builder_order_plain _ g hg).1,
      (builder_order_plain _ g hg).2, List.append_assoc]

theorem order_appends_after_prior_witness :
    (Query.OrderDescending (Query.Order fixture.users.NewQuery "age") "name").query.order
      = [{ Direction := datastore.sortDirection.ascending, FieldName := "age" },
         { Direction := datastore.sortDirection.descending, FieldName := "name" }] := by
  have h := (order_appends_after_prior fixture.users.NewQuery "age" "name" (by decide)
    (by decide)).2.2.1
  rw [h]
  decide

/-- C8: `Storage.Get` reports ErrNotFound exactly when the backend `Get` reports
`Done` (or ErrNotFound itself); the `ErrNoSuchEntity` that the store reports for
a key with no record is handed back as it is, as happens after a successful
`Storage.Delete` of a stored key. -/
theorem storage_get_absent_not_ErrNotFound :
    (∀ (σ : Type) (B : datastore.Service σ) (s : Storage) (key : Key) (st : σ),
      (Storage.Get B s key st).2 = some Error.ErrNotFound ↔
        ((B.Get s.conn.context key st).2 = some Error.Done ∨
          (B.Get s.conn.context key st).2 = some Error.ErrNotFound)) ∧
    (∀ (σ : Type) (B : datastore.Service σ) (s : Storage) (key : Key) (st : σ),
      (Storage.Get B s key st).2 = some Error.ErrNoSuchEntity ↔
        (B.Get s.conn.context key st).2 = some Error.ErrNoSuchEntity) ∧
    (Storage.Delete (memstore memstore.byKind) fixture.users { kind := "users", intID := 1 }
      fixture.table).1 = none ∧
    Storage.Get (memstore memstore.byKind) fixture.users { kind := "users", intID := 1 }
      (Storage.Delete (memstore memstore.byKind) fixture.users
        { kind := "users", intID := 1 } fixture.table).2
      = (none, some Error.ErrNoSuchEntity) ∧
    Storage.Get (memstore memstore.byKind) fixture.users { kind := "users", intID := 1 } []
      = (none, some Error.ErrNoSuchEntity) := by
  refine ⟨?_, ?_, by decide, by decide, by decide⟩
  · intro σ B s key st
    unfold Storage.Get Conn.Context
    by_cases h : (B.Get s.conn.context key st).2 = some Error.Done
    · simp [h]
    · simp [h]
  · intro σ B s key st
    unfold Storage.Get Conn.Context
    by_cases h : (B.Get s.conn.context key st).2 = some Error.Done
    · simp [h]
    · simp [h]

/-- C9: `Query.GetFirst` fails with ErrNotFound when the first advance of the
backend cursor reports end-of-results (the query has no result), hands any
other backend error back unchanged, and on success returns the identifier of
the first result the backend run of the accumulated query produces. -/
theorem getFirst_outcomes {σ : Type} (B : datastore.Service σ) (q : Query) (st : σ) :
    ((B.Run q.query q.storage.conn.context st).Next.1.2.2 = some Error.Done →
      (Query.GetFirst B q st).2.2 = some Error.ErrNotFound) ∧
    ((B.Run q.query q.storage.conn.context st).results = [] →
      (B.Run q.query q.storage.conn.context st).err = Error.Done →
      Query.GetFirst B q st = (none, none, some Error.ErrNotFound)) ∧
    (∀ e : Error, (B.Run q.query q.storage.conn.context st).Next.1.2.2 = some e →
      e ≠ Error.Done →
      (Query.GetFirst B q st).2.2 = some e) ∧
    ((B.Run q.query q.storage.conn.context st).Next.1.2.2 = none →
      Query.GetFirst B q st = (B.Run q.query q.storage.conn.context st).Next.1) ∧
    (∀ (r : Key × Option Entity) (rest : List (Key × Option Entity)),
      (B.Run q.query q.storage.conn.context st).results = r :: rest →
      Query.GetFirst B q st = (some r.1, r.2, none)) := by
  refine ⟨?_, ?_, ?_, ?_, ?_⟩
  · intro h
    simp [Query.GetFirst, Conn.Context, h]
  · exact getFirst_of_exhausted B q st
  · intro e h hne
    simp [Query.GetFirst, Conn.Context, h, hne]
  · intro h
    unfold Query.GetFirst Conn.Context
    simp only [h]
    exact Prod.ext rfl (Prod.ext rfl h.symm)
  · intro r rest hr
    simp [Query.GetFirst, Conn.Context, datastore.Iterator.Next, hr]

theorem getFirst_outcomes_witness :
    Query.GetFirst (memstore memstore.byKind) fixture.users.NewQuery fixture.table
      = (some { kind := "users", intID := 1 }, some [("name", Value.str "a")], none) ∧
    Query.GetFirst (memstore memstore.byKind) fixture.users.NewQuery []
      = (none, none, some Error.ErrNotFound) :=
  ⟨(getFirst_outcomes (memstore memstore.byKind) fixture.users.NewQuery fixture.table).2.2.2.2
      ({ kind := "users", intID := 1 }, some [("name", Value.str "a")])
      [({ kind := "users", intID := 2 }, some [("name", Value.str "b")])] (by decide),
   (getFirst_outcomes (memstore memstore.byKind) fixture.users.NewQuery []).2.1
      (by decide) (by decide)⟩

/-- C10: the iterator from `Query.Iter` is the backend cursor of the run of the
accumulated query, and `Iter.Next` returns exactly what the advance of that
cursor returns and keeps the advanced cursor; on a query with no result the
iterator fails with the backend `Done`, which is not ErrNotFound, while
`Query.GetFirst` fails with ErrNotFound. -/
theorem iter_next_is_cursor_advance {σ : Type} (B : datastore.Service σ) (q : Query)
    (st : σ) :
    (Query.Iter B q st).iter = B.Run q.query q.storage.conn.context st ∧
    (∀ i : Iter, i.Next.1 = i.iter.Next.1 ∧ i.Next.2.iter = i.iter.Next.2) ∧
    (Query.Iter B q st).Next.1 = (B.Run q.query q.storage.conn.context st).Next.1 ∧
    (Query.Iter B q st).Next.2.iter = (B.Run q.query q.storage.conn.context st).Next.2 ∧
    ((B.Run q.query q.storage.conn.context st).results = [] →
      (B.Run q.query q.storage.conn.context st).err = Error.Done →
      (Query.Iter B q st).Next.1 = (none, none, some Error.Done) ∧
      Query.GetFirst B q st = (none, none, some Error.ErrNotFound) ∧
      (Query.Iter B q st).Next.1.2.2 ≠ (Query.GetFirst B q st).2.2) := by
  refine ⟨rfl, fun i => ⟨rfl, rfl⟩, rfl, rfl, ?_⟩
  intro hr he
  have h1 : (Query.Iter B q st).Next.1 = (none, none, some Error.Done) := by
    simp [Query.Iter, Iter.Next, datastore.Iterator.Next, hr, he]
  have h2 : Query.GetFirst B q st = (none, none, some Error.ErrNotFound) :=
    getFirst_of_exhausted B q st hr he
  refine ⟨h1, h2, ?_⟩
  rw [h1, h2]
  simp

theorem iter_next_is_cursor_advance_witness :
    (Query.Iter (memstore memstore.byKind) fixture.users.NewQuery []).Next.1.2.2
      ≠ (Query.GetFirst (memstore memstore.byKind) fixture.users.NewQuery []).2.2 :=
  ((iter_next_is_cursor_advance (memstore memstore.byKind) fixture.users.NewQuery []).2.2.2.2
    (by decide) (by decide)).2.2

end datastone
